import Mathlib

/-!
Verification development for the stitch-magic video sequence tool
(src/pages/Index.tsx).

The embedding models:
- the clip data model (`VideoClip`, `Sequence`) with durations as exact
  integers (JS numbers idealised as exact arithmetic; every claim about
  durations concerns only their sums, so integral values suffice);
- the combinatorial sequence generator `generateSequences`, with the
  source's `Math.random()` draws modelled by an arbitrary stream
  `rand : Nat → Nat`, each draw reduced modulo its bound (so quantifying
  over `rand` covers exactly the outcomes `Math.floor(Math.random()*k)`
  can produce);
- the export pipeline (`exportSequence`, `downloadAllSequences`) over an
  explicit transient-workspace state `FS` mapping fixed file names to
  file data; binary payloads and media bytes are opaque chunks
  (`List String`), and the concatenation manifest `list.txt` is the
  ordered list of staged names (the source's textual serialisation
  `file <name>\n` per line is abstracted to the name list it denotes);
- the external ffmpeg service as the spec's black box: an oracle decides
  external failure, and on success the output artifact is the stream
  copy (chunk-list join) of the manifest's inputs in listed order.
-/

deriving instance DecidableEq for Except

namespace StitchMagic

/-! ### Decimal rendering of naturals (JS template-literal `${n}`) -/

/-- The ASCII digit character for `n < 10`. -/
def digitChar (n : Nat) : Char := Char.ofNat (48 + n)

/-- Fuel-based decimal digit expansion of a natural number, most
significant digit first; adequate whenever `n < fuel`. -/
def natToStringAux : Nat → Nat → List Char
  | 0, _ => []
  | fuel + 1, n =>
    if n < 10 then [digitChar n]
    else natToStringAux fuel (n / 10) ++ [digitChar (n % 10)]

/-- Decimal rendering of a natural number, as produced by a JS template
literal for a nonnegative integer. -/
def natToString (n : Nat) : String := String.mk (natToStringAux (n + 1) n)

/-- Value of a digit string, used to invert `natToStringAux`. -/
def digitsVal (l : List Char) : Nat :=
  l.foldl (fun acc c => acc * 10 + (c.toNat - 48)) 0

/-! ### Data model -/

/-- The clip roles (`VideoClip['type']` in the source). -/
inductive ClipType
  | hook
  | sellingPoint
  | cta
deriving DecidableEq

/-- A classified content unit (`interface VideoClip`).  The optional
`file` is the opaque binary payload, a list of opaque chunks. -/
structure VideoClip where
  id : String
  name : String
  duration : Int
  type : ClipType
  file : Option (List String)
deriving DecidableEq

/-- An ordered composition of clips (`interface Sequence`). -/
structure Sequence where
  id : String
  clips : List VideoClip
  duration : Int
deriving DecidableEq

/-- Placeholder clip used for (never-taken) out-of-range list reads. -/
def dummyClip : VideoClip :=
  { id := "", name := "", duration := 0, type := ClipType.sellingPoint, file := none }

/-- Sum of the durations of a clip list, as the source's
`reduce((acc, clip) => acc + clip.duration, 0)`. -/
def sumDuration (clips : List VideoClip) : Int :=
  clips.foldl (fun acc c => acc + c.duration) 0

/-! ### The sequence generator -/

/-- Generation failure kinds (the source reports them as toasts; the
spec names them `EmptyInput` and `MissingRole`). -/
inductive GenError
  | emptyInput
  | missingRole
deriving DecidableEq

/-- `binomialCoefficient`'s loop `result *= (n + 1 - i) / i` for
`i = 1..k`, over exact rationals. -/
def binomProd (n k : Nat) : Rat :=
  (List.range k).foldl
    (fun (r : Rat) (i : Nat) => r * (((n : Rat) + 1 - ((i : Rat) + 1)) / ((i : Rat) + 1))) 1

/-- The source's `binomialCoefficient(n, k)` (floating point idealised
as exact rational arithmetic, then `Math.floor`). -/
def binomialCoefficient (n k : Nat) : Int :=
  if k > n then 0
  else if k = 0 ∨ k = n then 1
  else Int.floor (binomProd n k)

/-- The source's `maxCombinations` computation:
`hooks.length * ctas.length * Σ_{i=0}^{maxSellingPoints-1} C(|points|, i+1)`,
where `maxSellingPoints = min 3 |points|`.  Note the sum is the *empty*
sum (value 0) when there are no selling points. -/
def maxCombinations (hooksLen ctasLen pointsLen : Nat) : Int :=
  (hooksLen : Int) * (ctasLen : Int) *
    (((List.range (min 3 pointsLen)).map
        (fun i => binomialCoefficient pointsLen (i + 1))).foldl (fun a b => a + b) 0)

/-- In-place swap of the positions `i` and `j` of an array modelled as a
function from indices to contents. -/
def swapArr (f : Nat → Nat) (i j : Nat) : Nat → Nat :=
  fun x => if x = i then f j else if x = j then f i else f x

/-- The source's Fisher–Yates loop
`for (let i = len-1; i > 0; i--) { j = floor(rand * (i+1)); swap(a[i], a[j]) }`
on the index array modelled as a function; the first argument is the
current loop variable `i`, and the trailing `Nat` threads the position
in the random stream.  Returns the final array and stream position. -/
def fisherYates (rand : Nat → Nat) : Nat → (Nat → Nat) → Nat → ((Nat → Nat) × Nat)
  | 0, f, ctr => (f, ctr)
  | i + 1, f, ctr =>
      fisherYates rand i (swapArr f (i + 1) (rand ctr % (i + 2))) (ctr + 1)

/-- JS `Array.prototype.join('|')`. -/
def joinPipe : List String → String
  | [] => ""
  | [a] => a
  | a :: b :: rest => a ++ "|" ++ joinPipe (b :: rest)

/-- JS `Array.prototype.sort()` on id strings: sorting in lexicographic
string order. -/
def sortIds (l : List String) : List String :=
  List.insertionSort (fun a b => a ≤ b) l

/-- The source's `combinationKey`: hook id, the selected selling-point
ids sorted, and the cta id, joined with `|`. -/
def combinationKey (hk : VideoClip) (sps : List VideoClip) (ct : VideoClip) : String :=
  joinPipe ([hk.id] ++ sortIds (sps.map (fun sp => sp.id)) ++ [ct.id])

/-- The random selections of one attempt of the generation loop: a
hook, a cta, a selling-point count, and the Fisher–Yates-shuffled
selling-point prefix, together with the next position in the random
stream. -/
structure Attempt where
  selectedHook : VideoClip
  selectedSellingPoints : List VideoClip
  selectedCTA : VideoClip
  nextCtr : Nat

/-- The selection half of the source's loop body (lines 216–233): pick
a hook and a cta uniformly, a selling-point count in `1..maxSP` (the
`Math.floor(Math.random() * maxSP) + 1` draw, capped by the pool size),
shuffle the selling-point indices, and take the prefix. -/
def pickAttempt (hooks points ctas : List VideoClip) (maxSP : Nat) (rand : Nat → Nat)
    (ctr : Nat) : Attempt :=
  let selectedHook := hooks.getD (rand ctr % hooks.length) dummyClip
  let selectedCTA := ctas.getD (rand (ctr + 1) % ctas.length) dummyClip
  let numSellingPoints :=
    min ((if maxSP = 0 then 0 else rand (ctr + 2) % maxSP) + 1) points.length
  let fy := fisherYates rand (points.length - 1) (fun i => i) (ctr + 3)
  { selectedHook := selectedHook
    selectedSellingPoints :=
      (List.range numSellingPoints).map (fun k => points.getD (fy.1 k) dummyClip)
    selectedCTA := selectedCTA
    nextCtr := fy.2 }

/-- The sequence the loop body appends for a novel attempt (lines
244–256): the clips preserve the selection order actually drawn, the
duration is the sum of the clip durations, and the id carries the
1-based count. -/
def mkSeq (a : Attempt) (count : Nat) : Sequence :=
  { id := "sequence-" ++ natToString (count + 1)
    clips := [a.selectedHook] ++ a.selectedSellingPoints ++ [a.selectedCTA]
    duration := sumDuration ([a.selectedHook] ++ a.selectedSellingPoints ++ [a.selectedCTA]) }

/-- One body of the source's `while` generation loop, followed by the
remaining iterations.  Arguments mirror the source's loop state:
remaining attempt budget (`fuel`, starting at `maxAttempts = 100`),
`newSequences`, `usedCombinations` (as a list), and the position in the
random stream.  Returns the collected sequences and the remaining
budget at exit. -/
def genLoop (hooks points ctas : List VideoClip) (maxSP : Nat) (target : Int)
    (rand : Nat → Nat) :
    Nat → List Sequence → List String → Nat → (List Sequence × Nat)
  | 0, seqs, _, _ => (seqs, 0)
  | fuel + 1, seqs, used, ctr =>
    if (seqs.length : Int) < target then
      let a := pickAttempt hooks points ctas maxSP rand ctr
      let key := combinationKey a.selectedHook a.selectedSellingPoints a.selectedCTA
      if key ∈ used then
        genLoop hooks points ctas maxSP target rand fuel seqs used a.nextCtr
      else
        genLoop hooks points ctas maxSP target rand fuel (seqs ++ [mkSeq a seqs.length])
          (key :: used) a.nextCtr
    else (seqs, fuel + 1)

/-- The source's `generateSequences`, with the UI toasts for the empty
and missing-role cases rendered as the spec's error kinds.  `hooks`,
`sellingPoints` and `ctas` are the role partitions of the clip set;
`maxSellingPoints = min 3 |sellingPoints|` and
`targetSequences = min 10 maxCombinations` as in the source. -/
def generateSequences (availableClips : List VideoClip) (rand : Nat → Nat) :
    Except GenError (List Sequence) :=
  if availableClips.length = 0 then Except.error GenError.emptyInput
  else if (availableClips.filter (fun c => c.type == ClipType.hook)).length = 0 ∨
      (availableClips.filter (fun c => c.type == ClipType.cta)).length = 0 then
    Except.error GenError.missingRole
  else
    Except.ok
      (genLoop (availableClips.filter (fun c => c.type == ClipType.hook))
        (availableClips.filter (fun c => c.type == ClipType.sellingPoint))
        (availableClips.filter (fun c => c.type == ClipType.cta))
        (min 3 (availableClips.filter (fun c => c.type == ClipType.sellingPoint)).length)
        (min 10 (maxCombinations
          (availableClips.filter (fun c => c.type == ClipType.hook)).length
          (availableClips.filter (fun c => c.type == ClipType.cta)).length
          (availableClips.filter (fun c => c.type == ClipType.sellingPoint)).length))
        rand 100 [] [] 0).1

/-! ### The export pipeline -/

/-- Contents of one transient-workspace file: an ordered list of opaque
chunks (for media files) or the list of staged input names (for the
concatenation manifest `list.txt`). -/
abbrev FileData := List String

/-- The ffmpeg virtual filesystem: the process-wide transient workspace
keyed by fixed file names. -/
abbrev FS := String → Option FileData

/-- The empty transient workspace. -/
def fsEmpty : FS := fun _ => none

/-- `ffmpeg.writeFile`. -/
def fsWrite (fs : FS) (nm : String) (d : FileData) : FS :=
  fun m => if m = nm then some d else fs m

/-- `ffmpeg.deleteFile`. -/
def fsDelete (fs : FS) (nm : String) : FS :=
  fun m => if m = nm then none else fs m

/-- The staged name for the clip at position `i`: `input{i}.mp4`. -/
def inputName (i : Nat) : String := "input" ++ natToString i ++ ".mp4"

/-- Export failure kinds (the source throws JS `Error`s; the spec names
the kinds). -/
inductive ExportError
  | missingPayload (clipName : String)
  | externalFailure
  | readFailure
  | emptyInput
deriving DecidableEq

/-- A finished media artifact (name and output bytes). -/
structure Artifact where
  name : String
  data : FileData
deriving DecidableEq

/-- The staging loop of `exportSequence`: writes each clip's payload to
`input{i}.mp4` and accumulates the manifest entries in clip order;
throws `missingPayload` (leaving already-staged files in place, as the
source does) when a clip has no payload. -/
def stageLoop : List VideoClip → FS → Nat → List String →
    (Except ExportError (List String)) × FS
  | [], fs, _, acc => (Except.ok acc, fs)
  | c :: rest, fs, i, acc =>
    match c.file with
    | none => (Except.error (ExportError.missingPayload c.name), fs)
    | some d => stageLoop rest (fsWrite fs (inputName i) d) (i + 1) (acc ++ [inputName i])

/-- Reading every named input from the workspace, in listed order;
`none` as soon as one is missing. -/
def lookupAll (fs : FS) : List String → Option (List FileData)
  | [] => some []
  | n :: rest =>
    match fs n, lookupAll fs rest with
    | some d, some ds => some (d :: ds)
    | _, _ => none

/-- Modelled from the spec: the external media-processing service
(`ffmpeg.exec` with the concat demuxer), an atomic black box.  The
`execFails` oracle decides the spec's `ExternalServiceFailure` outcome;
on success the service reads the manifest `list.txt` and writes
`output.mp4`, the stream copy (chunk-list join) of the named inputs in
listed order. -/
def ffmpegConcat (execFails : Bool) (fs : FS) : (Except ExportError Unit) × FS :=
  if execFails then (Except.error ExportError.externalFailure, fs)
  else
    match fs "list.txt" with
    | none => (Except.error ExportError.externalFailure, fs)
    | some names =>
      match lookupAll fs names with
      | none => (Except.error ExportError.externalFailure, fs)
      | some contents => (Except.ok (), fsWrite fs "output.mp4" contents.flatten)

/-- The cleanup block of `exportSequence` (lines 318–322 of the source):
delete the staged inputs, the manifest, and the output. -/
def cleanupWorkspace (fs : FS) (n : Nat) : FS :=
  fsDelete
    (fsDelete ((List.range n).foldl (fun f i => fsDelete f (inputName i)) fs) "list.txt")
    "output.mp4"

/-- The source's `exportSequence(sequence, index?)`, faithful to its
control flow: staging, manifest write, external concatenation, output
read; when `index` is present the artifact is returned *before* the
cleanup block (so cleanup is skipped), and any thrown error is
propagated from the point of failure (also skipping cleanup); only the
successful direct-download path (no `index`) reaches cleanup. -/
def exportSequence (execFails : Bool) (fs : FS) (s : Sequence) (index : Option Nat) :
    (Except ExportError (Option Artifact)) × FS :=
  match stageLoop s.clips fs 0 [] with
  | (Except.error e, fs1) => (Except.error e, fs1)
  | (Except.ok manifest, fs1) =>
    let fs2 := fsWrite fs1 "list.txt" manifest
    match ffmpegConcat execFails fs2 with
    | (Except.error e, fs3) => (Except.error e, fs3)
    | (Except.ok _, fs3) =>
      match fs3 "output.mp4" with
      | none => (Except.error ExportError.readFailure, fs3)
      | some outputData =>
        match index with
        | some i =>
            (Except.ok (some { name := "restitched " ++ natToString (i + 1) ++ ".mp4"
                               data := outputData }), fs3)
        | none => (Except.ok none, cleanupWorkspace fs3 s.clips.length)

/-- The sequential loop of `downloadAllSequences`: exports each sequence
with its index and collects the archive entries (name, bytes) in order;
a failing export aborts the whole loop with its error. -/
def batchLoop (oracle : Nat → Bool) : List Sequence → Nat → FS → List (String × FileData) →
    (Except ExportError (List (String × FileData))) × FS
  | [], _, fs, entries => (Except.ok entries, fs)
  | s :: rest, i, fs, entries =>
    match exportSequence (oracle i) fs s (some i) with
    | (Except.error e, fs2) => (Except.error e, fs2)
    | (Except.ok art, fs2) =>
      match art with
      | some a =>
          batchLoop oracle rest (i + 1) fs2
            (entries ++ [("restitched " ++ natToString (i + 1) ++ ".mp4", a.data)])
      | none => batchLoop oracle rest (i + 1) fs2 entries

/-- The source's `downloadAllSequences`: the batch export.  On success
the result is the archive's entry list (the JSZip container modelled as
its ordered (name, bytes) entries). -/
def downloadAllSequences (oracle : Nat → Bool) (fs : FS) (sequences : List Sequence) :
    (Except ExportError (List (String × FileData))) × FS :=
  if sequences.length = 0 then (Except.error ExportError.emptyInput, fs)
  else batchLoop oracle sequences 0 fs []

/-! ### The clip registry state -/

/-- The component state relevant to the registry claims:
`availableClips` and the already-generated `sequences`. -/
structure AppState where
  availableClips : List VideoClip
  sequences : List Sequence

/-- The source's `updateClipType`: replace the role of the clip with the
given id in the registry (building a fresh record, as the JS spread
does). -/
def updateClipType (clipId : String) (newType : ClipType) (s : AppState) : AppState :=
  { s with availableClips :=
      s.availableClips.map (fun c => if c.id == clipId then { c with type := newType } else c) }

/-- The source's `removeClip`. -/
def removeClip (clipId : String) (s : AppState) : AppState :=
  { s with availableClips := s.availableClips.filter (fun c => c.id != clipId) }

/-- The source's `removeAllClips`. -/
def removeAllClips (s : AppState) : AppState :=
  { s with availableClips := [] }

/-- The id the program creates for an uploaded clip:
`clip-${Date.now()}-${Math.random()}`, with the timestamp a natural
number and the random value's decimal rendering `0.<digits>` modelled by
the natural number of its fraction digits. -/
def mkClipId (ts rnd : Nat) : String :=
  "clip-" ++ natToString ts ++ "-0." ++ natToString rnd

/-- A string free of the `|` separator character. -/
def pipeFree (s : String) : Prop := '|' ∉ s.data

instance (s : String) : Decidable (pipeFree s) :=
  inferInstanceAs (Decidable ('|' ∉ s.data))

/-- Modelled from the spec: the claimed theoretical combination ceiling
`|hooks| × |ctas| × Σ_{k=1}^{maxPoints} C(|points|, k)` *with the sum
defined as 1 when `maxPoints = 0`* (spec §4.1 step 3), for comparison
with the source's `maxCombinations`. -/
def specCeiling (hooksLen ctasLen pointsLen : Nat) : Int :=
  (hooksLen : Int) * (ctasLen : Int) *
    (if min 3 pointsLen = 0 then 1
     else ∑ k ∈ Finset.Icc 1 (min 3 pointsLen), (pointsLen.choose k : Int))

/-! ### Observers on generated sequences -/

/-- The hook position of a generated sequence (its first clip). -/
def hookIdOf (s : Sequence) : String := (s.clips.headD dummyClip).id

/-- The cta position of a generated sequence (its last clip). -/
def ctaIdOf (s : Sequence) : String := (s.clips.getLastD dummyClip).id

/-- The selling-point ids of a generated sequence (all clips strictly
between the first and the last), in their stored order. -/
def spIdsOf (s : Sequence) : List String :=
  ((s.clips.drop 1).dropLast).map (fun p => p.id)

/-- The combination key a sequence's stored clips denote, i.e. the key
the generator computed when it created the sequence. -/
def seqKey (s : Sequence) : String :=
  joinPipe ([hookIdOf s] ++ sortIds (spIdsOf s) ++ [ctaIdOf s])

/-- Structural well-formedness of a generated sequence relative to the
role partitions: one hook, then selling points (pairwise distinct, with
at least one whenever the pool is non-empty and never more than
`maxSP`), then one cta, with the stored duration the sum of the stored
clips' durations. -/
def InSeqShape (hooks points ctas : List VideoClip) (maxSP : Nat) (s : Sequence) : Prop :=
  ∃ hk sps ct, s.clips = hk :: (sps ++ [ct]) ∧ hk ∈ hooks ∧ ct ∈ ctas ∧
    (∀ p ∈ sps, p ∈ points) ∧ (sps.map (fun p => p.id)).Nodup ∧
    sps.length ≤ maxSP ∧ (points = [] ∨ 1 ≤ sps.length) ∧
    s.duration = sumDuration s.clips

/-- Character-level counterpart of `joinPipe`, used to reason about the
injectivity of the combination key. -/
def charJoin : List (List Char) → List Char
  | [] => []
  | [a] => a
  | a :: b :: rest => a ++ '|' :: charJoin (b :: rest)

/-! ### Concrete clips and sequences for evaluations -/

/-- Example hook clip with a payload. -/
def exHook : VideoClip :=
  { id := "clip-100-0.11", name := "hookA", duration := 2, type := ClipType.hook,
    file := some ["HOOK-BYTES"] }

/-- Example selling-point clip with a payload. -/
def exPoint : VideoClip :=
  { id := "clip-101-0.22", name := "spB", duration := 4, type := ClipType.sellingPoint,
    file := some ["SP-BYTES"] }

/-- Example cta clip with a payload. -/
def exCta : VideoClip :=
  { id := "clip-102-0.33", name := "ctaC", duration := 3, type := ClipType.cta,
    file := some ["CTA-BYTES"] }

/-- Example clip whose binary payload is missing. -/
def exNoPayload : VideoClip :=
  { id := "clip-103-0.44", name := "B", duration := 3, type := ClipType.cta, file := none }

/-- The sequence that `generateSequences [exHook, exPoint, exCta]`
returns with the all-zero random stream. -/
def exSeq1 : Sequence :=
  { id := "sequence-1", clips := [exHook, exPoint, exCta], duration := 9 }

/-- A sequence whose second clip lacks its payload. -/
def seqMissing : Sequence :=
  { id := "sequence-1", clips := [exHook, exNoPayload], duration := 5 }

/-- A one-clip sequence with its payload present. -/
def seqOk : Sequence := { id := "sequence-1", clips := [exHook], duration := 2 }

/-- A three-clip sequence with all payloads present. -/
def seqOk2 : Sequence :=
  { id := "sequence-2", clips := [exHook, exPoint, exCta], duration := 9 }

/-! ### Lemmas: decimal rendering -/

lemma digitChar_toNat {n : Nat} (h : n < 10) : (digitChar n).toNat = 48 + n := by
  interval_cases n <;> rfl

lemma digitsVal_append (xs : List Char) (c : Char) :
    digitsVal (xs ++ [c]) = digitsVal xs * 10 + (c.toNat - 48) := by
  simp [digitsVal, List.foldl_append]

lemma natToStringAux_val : ∀ fuel n, n < fuel → digitsVal (natToStringAux fuel n) = n := by
  intro fuel
  induction fuel with
  | zero => intro n h; omega
  | succ fuel ih =>
    intro n h
    by_cases h10 : n < 10
    · simp only [natToStringAux, if_pos h10, digitsVal, List.foldl_cons, List.foldl_nil,
        digitChar_toNat h10]
      omega
    · have hdiv : n / 10 < fuel := by
        have := Nat.div_lt_self (show 0 < n by omega) (show 1 < 10 by omega)
        omega
      rw [natToStringAux, if_neg h10, digitsVal_append, ih _ hdiv,
        digitChar_toNat (Nat.mod_lt n (by omega))]
      omega

lemma natToString_injective : Function.Injective natToString := by
  intro a b h
  have hdata : natToStringAux (a + 1) a = natToStringAux (b + 1) b := congrArg String.data h
  have hv := congrArg digitsVal hdata
  rwa [natToStringAux_val _ _ (Nat.lt_succ_self a), natToStringAux_val _ _ (Nat.lt_succ_self b)]
    at hv

lemma natToStringAux_mem : ∀ fuel n c, c ∈ natToStringAux fuel n →
    48 ≤ c.toNat ∧ c.toNat ≤ 57 := by
  intro fuel
  induction fuel with
  | zero => intro n c hc; simp [natToStringAux] at hc
  | succ fuel ih =>
    intro n c hc
    by_cases h10 : n < 10
    · rw [natToStringAux, if_pos h10] at hc
      simp at hc
      subst hc
      rw [digitChar_toNat h10]; omega
    · rw [natToStringAux, if_neg h10] at hc
      rcases List.mem_append.1 hc with hm | hm
      · exact ih _ _ hm
      · simp at hm
        subst hm
        rw [digitChar_toNat (Nat.mod_lt n (by omega))]
        have := Nat.mod_lt n (show 0 < 10 by omega)
        omega

lemma natToString_pipeFree (n : Nat) : '|' ∉ (natToString n).data := by
  intro hmem
  have h := natToStringAux_mem (n + 1) n _ hmem
  have : ('|').toNat = 124 := rfl
  omega

/-! ### Lemmas: staged file names -/

lemma inputName_data (i : Nat) :
    (inputName i).data = "input".data ++ ((natToString i).data ++ ".mp4".data) := by
  simp [inputName, String.data_append, List.append_assoc]

lemma inputName_injective : Function.Injective inputName := by
  intro a b h
  have h2 := congrArg String.data h
  rw [inputName_data, inputName_data] at h2
  have h3 := List.append_cancel_left h2
  have h4 := List.append_cancel_right h3
  exact natToString_injective (String.ext h4)

lemma inputName_head (i : Nat) : (inputName i).data.head? = some 'i' := by
  rw [inputName_data]; rfl

lemma inputName_ne_list (i : Nat) : inputName i ≠ "list.txt" := by
  intro h
  have h1 := inputName_head i
  rw [h] at h1
  exact absurd h1 (by decide)

lemma inputName_ne_output (i : Nat) : inputName i ≠ "output.mp4" := by
  intro h
  have h1 := inputName_head i
  rw [h] at h1
  exact absurd h1 (by decide)

/-! ### Lemmas: the binomial coefficient routine -/

lemma binomProd_succ (n k : Nat) :
    binomProd n (k + 1) =
      binomProd n k * (((n : Rat) - (k : Rat)) / ((k : Rat) + 1)) := by
  unfold binomProd
  rw [List.range_succ, List.foldl_append]
  norm_num

lemma binomProd_eq_choose : ∀ k n, k ≤ n → binomProd n k = (n.choose k : Rat) := by
  intro k
  induction k with
  | zero => intro n _; simp [binomProd]
  | succ k ih =>
    intro n h
    rw [binomProd_succ, ih n (by omega)]
    have hk : ((k : Rat) + 1) ≠ 0 := by positivity
    field_simp
    have hc := (Nat.choose_succ_right_eq n k).symm
    have h2 : ((n.choose k : Rat)) * (((n - k : Nat) : Rat)) =
        (n.choose (k + 1) : Rat) * ((k : Rat) + 1) := by
      exact_mod_cast congrArg (fun m : Nat => (m : Rat)) hc
    rw [Nat.cast_sub (show k ≤ n by omega)] at h2
    linarith [h2]

lemma binomialCoefficient_eq_choose (n k : Nat) :
    binomialCoefficient n k = (n.choose k : Int) := by
  unfold binomialCoefficient
  split_ifs with h1 h2
  · rw [Nat.choose_eq_zero_of_lt h1]; rfl
  · rcases h2 with rfl | rfl
    · simp
    · simp [Nat.choose_self]
  · push_neg at h1
    rw [binomProd_eq_choose k n h1]
    exact_mod_cast Int.floor_natCast (n.choose k)

lemma listSum_choose (p : Nat) : ∀ m,
    ((List.range m).map (fun i => binomialCoefficient p (i + 1))).foldl
        (fun a b => a + b) 0 =
      ∑ k ∈ Finset.Icc 1 m, (p.choose k : Int) := by
  intro m
  induction m with
  | zero => simp
  | succ m ih =>
    rw [List.range_succ, List.map_append, List.foldl_append]
    simp only [List.map_cons, List.map_nil, List.foldl_cons, List.foldl_nil, ih]
    rw [Finset.sum_Icc_succ_top (by omega : 1 ≤ m + 1), binomialCoefficient_eq_choose]

lemma maxCombinations_eq (h c p : Nat) :
    maxCombinations h c p =
      (h : Int) * (c : Int) * ∑ k ∈ Finset.Icc 1 (min 3 p), (p.choose k : Int) := by
  unfold maxCombinations
  rw [listSum_choose]

lemma maxCombinations_nonneg (h c p : Nat) : 0 ≤ maxCombinations h c p := by
  rw [maxCombinations_eq]
  have : (0 : Int) ≤ ∑ k ∈ Finset.Icc 1 (min 3 p), (p.choose k : Int) :=
    Finset.sum_nonneg (fun k _ => Int.natCast_nonneg _)
  positivity

/-! ### Lemmas: Fisher–Yates shuffle -/

lemma swapArr_eq_comp (f : Nat → Nat) (i j : Nat) :
    swapArr f i j = fun x => f (if x = i then j else if x = j then i else x) := by
  funext x
  unfold swapArr
  split_ifs <;> rfl

lemma transp_injective (i j : Nat) :
    Function.Injective (fun x : Nat => if x = i then j else if x = j then i else x) := by
  intro x y h
  dsimp only at h
  split_ifs at h <;> omega

lemma swapArr_injective {f : Nat → Nat} (hf : Function.Injective f) (i j : Nat) :
    Function.Injective (swapArr f i j) := by
  rw [swapArr_eq_comp]
  intro x y h
  exact transp_injective i j (hf h)

lemma swapArr_bound {f : Nat → Nat} {len : Nat} (hb : ∀ x, x < len → f x < len)
    {i j : Nat} (hi : i < len) (hj : j < len) :
    ∀ x, x < len → swapArr f i j x < len := by
  intro x hx
  unfold swapArr
  split_ifs
  · exact hb j hj
  · exact hb i hi
  · exact hb x hx

lemma fisherYates_spec (rand : Nat → Nat) (len : Nat) :
    ∀ i (f : Nat → Nat) ctr, i < len → Function.Injective f →
      (∀ x, x < len → f x < len) →
      Function.Injective (fisherYates rand i f ctr).1 ∧
        (∀ x, x < len → (fisherYates rand i f ctr).1 x < len) := by
  intro i
  induction i with
  | zero => intro f ctr _ hinj hb; exact ⟨hinj, hb⟩
  | succ i ih =>
    intro f ctr hlt hinj hb
    rw [fisherYates]
    refine ih _ _ (by omega) (swapArr_injective hinj _ _) ?_
    refine swapArr_bound hb hlt ?_
    have := Nat.mod_lt (rand ctr) (show 0 < i + 2 by omega)
    omega

/-! ### Lemmas: one attempt of the generation loop -/

lemma pickAttempt_spec (hooks points ctas : List VideoClip) (maxSP : Nat)
    (rand : Nat → Nat) (ctr : Nat) (hhooks : hooks ≠ []) (hctas : ctas ≠ [])
    (hmax : maxSP = min 3 points.length)
    (hnd : (points.map (fun p => p.id)).Nodup) :
    (pickAttempt hooks points ctas maxSP rand ctr).selectedHook ∈ hooks ∧
    (pickAttempt hooks points ctas maxSP rand ctr).selectedCTA ∈ ctas ∧
    (∀ p ∈ (pickAttempt hooks points ctas maxSP rand ctr).selectedSellingPoints,
      p ∈ points) ∧
    ((pickAttempt hooks points ctas maxSP rand ctr).selectedSellingPoints.map
      (fun p => p.id)).Nodup ∧
    (pickAttempt hooks points ctas maxSP rand ctr).selectedSellingPoints.length ≤ maxSP ∧
    (points = [] ∨
      1 ≤ (pickAttempt hooks points ctas maxSP rand ctr).selectedSellingPoints.length) := by
  have hhl : 0 < hooks.length := List.length_pos.2 hhooks
  have hcl : 0 < ctas.length := List.length_pos.2 hctas
  unfold pickAttempt
  simp only
  set num := min ((if maxSP = 0 then 0 else rand (ctr + 2) % maxSP) + 1) points.length
    with hnum
  set fy := fisherYates rand (points.length - 1) (fun i => i) (ctr + 3) with hfy
  refine ⟨?_, ?_, ?_, ?_, ?_, ?_⟩
  · rw [List.getD_eq_get _ _ (Nat.mod_lt _ hhl)]
    exact List.get_mem _ _ _
  · rw [List.getD_eq_get _ _ (Nat.mod_lt _ hcl)]
    exact List.get_mem _ _ _
  · intro p hp
    rcases List.mem_map.1 hp with ⟨k, hk, rfl⟩
    have hkn : k < num := List.mem_range.1 hk
    have hlenpos : 0 < points.length := by
      rcases Nat.eq_zero_or_pos points.length with h0 | h0
      · omega
      · exact h0
    have hspec := fisherYates_spec rand points.length (points.length - 1)
      (fun i => i) (ctr + 3) (by omega) (fun a b hab => hab) (fun x hx => hx)
    have hflt : fy.1 k < points.length := by
      refine hspec.2 k ?_
      have : num ≤ points.length := min_le_right _ _
      omega
    rw [List.getD_eq_get _ _ hflt]
    exact List.get_mem _ _ _
  · rw [List.map_map]
    refine List.Nodup.map_on ?_ (List.nodup_range num)
    intro x hx y hy hxy
    have hxn : x < num := List.mem_range.1 hx
    have hyn : y < num := List.mem_range.1 hy
    have hnle : num ≤ points.length := min_le_right _ _
    have hlenpos : 0 < points.length := by omega
    have hspec := fisherYates_spec rand points.length (points.length - 1)
      (fun i => i) (ctr + 3) (by omega) (fun a b hab => hab) (fun x hx => hx)
    have hxlt : fy.1 x < points.length := hspec.2 x (by omega)
    have hylt : fy.1 y < points.length := hspec.2 y (by omega)
    dsimp only [Function.comp] at hxy
    rw [List.getD_eq_get _ _ hxlt, List.getD_eq_get _ _ hylt] at hxy
    have hidx : fy.1 x = fy.1 y := by
      have hgetinj := List.nodup_iff_injective_get.1 hnd
      have h1 : (points.map (fun p => p.id)).get ⟨fy.1 x, by simpa using hxlt⟩ =
          (points.map (fun p => p.id)).get ⟨fy.1 y, by simpa using hylt⟩ := by
        simp only [List.get_map]
        exact hxy
      have := hgetinj h1
      simpa using congrArg Fin.val this
    exact hspec.1 hidx
  · have : ((List.range num).map
        (fun k => points.getD (fy.1 k) dummyClip)).length = num := by simp
    rw [this]
    by_cases h0 : maxSP = 0
    · have : points.length = 0 := by omega
      simp [hnum, h0, this]
    · have hmod := Nat.mod_lt (rand (ctr + 2)) (show 0 < maxSP by omega)
      have : num ≤ (rand (ctr + 2) % maxSP) + 1 := by
        rw [hnum]; simp [h0]
      omega
  · by_cases hpts : points = []
    · exact Or.inl hpts
    · refine Or.inr ?_
      have hlenpos : 0 < points.length := List.length_pos.2 hpts
      have : ((List.range num).map
          (fun k => points.getD (fy.1 k) dummyClip)).length = num := by simp
      rw [this]
      omega

/-! ### Lemmas: the generation loop -/

lemma genLoop_succ (hooks points ctas : List VideoClip) (maxSP : Nat) (target : Int)
    (rand : Nat → Nat) (fuel : Nat) (seqs : List Sequence) (used : List String)
    (ctr : Nat) :
    genLoop hooks points ctas maxSP target rand (fuel + 1) seqs used ctr =
      if (seqs.length : Int) < target then
        if combinationKey (pickAttempt hooks points ctas maxSP rand ctr).selectedHook
            (pickAttempt hooks points ctas maxSP rand ctr).selectedSellingPoints
            (pickAttempt hooks points ctas maxSP rand ctr).selectedCTA ∈ used then
          genLoop hooks points ctas maxSP target rand fuel seqs used
            (pickAttempt hooks points ctas maxSP rand ctr).nextCtr
        else
          genLoop hooks points ctas maxSP target rand fuel
            (seqs ++ [mkSeq (pickAttempt hooks points ctas maxSP rand ctr) seqs.length])
            (combinationKey (pickAttempt hooks points ctas maxSP rand ctr).selectedHook
                (pickAttempt hooks points ctas maxSP rand ctr).selectedSellingPoints
                (pickAttempt hooks points ctas maxSP rand ctr).selectedCTA :: used)
            (pickAttempt hooks points ctas maxSP rand ctr).nextCtr
      else (seqs, fuel + 1) := rfl

lemma genLoop_length (hooks points ctas : List VideoClip) (maxSP : Nat) (target : Int)
    (rand : Nat → Nat) :
    ∀ fuel seqs used ctr, (seqs.length : Int) ≤ target →
      ((genLoop hooks points ctas maxSP target rand fuel seqs used ctr).1.length : Int)
          ≤ target ∧
        (((genLoop hooks points ctas maxSP target rand fuel seqs used ctr).1.length : Int)
            < target →
          (genLoop hooks points ctas maxSP target rand fuel seqs used ctr).2 = 0) := by
  intro fuel
  induction fuel with
  | zero => intro seqs used ctr h; exact ⟨h, fun _ => rfl⟩
  | succ fuel ih =>
    intro seqs used ctr h
    rw [genLoop_succ]
    by_cases hlt : (seqs.length : Int) < target
    · rw [if_pos hlt]
      by_cases hkey : combinationKey
          (pickAttempt hooks points ctas maxSP rand ctr).selectedHook
          (pickAttempt hooks points ctas maxSP rand ctr).selectedSellingPoints
          (pickAttempt hooks points ctas maxSP rand ctr).selectedCTA ∈ used
      · rw [if_pos hkey]
        exact ih seqs used _ h
      · rw [if_neg hkey]
        refine ih _ _ _ ?_
        simp only [List.length_append, List.length_cons, List.length_nil]
        push_cast
        omega
    · rw [if_neg hlt]
      exact ⟨h, fun hc => absurd hc hlt⟩

lemma observers_of_clips {hk ct : VideoClip} {sps : List VideoClip} {s : Sequence}
    (h : s.clips = hk :: (sps ++ [ct])) :
    hookIdOf s = hk.id ∧ ctaIdOf s = ct.id ∧
      spIdsOf s = sps.map (fun p => p.id) := by
  refine ⟨?_, ?_, ?_⟩
  · simp [hookIdOf, h]
  · unfold ctaIdOf
    rw [h, List.getLastD_eq_getLast?, ← List.cons_append, List.getLast?_concat]
    rfl
  · simp [spIdsOf, h, List.dropLast_concat]

lemma seqKey_of_clips {hk ct : VideoClip} {sps : List VideoClip} {s : Sequence}
    (h : s.clips = hk :: (sps ++ [ct])) :
    seqKey s = combinationKey hk sps ct := by
  obtain ⟨h1, h2, h3⟩ := observers_of_clips h
  rw [seqKey, combinationKey, h1, h2, h3]

lemma genLoop_shape (hooks points ctas : List VideoClip) (maxSP : Nat) (target : Int)
    (rand : Nat → Nat) (hhooks : hooks ≠ []) (hctas : ctas ≠ [])
    (hmax : maxSP = min 3 points.length)
    (hnd : (points.map (fun p => p.id)).Nodup) :
    ∀ fuel seqs used ctr,
      (∀ s ∈ seqs, InSeqShape hooks points ctas maxSP s) →
      (seqs.map seqKey).Nodup →
      (∀ s ∈ seqs, seqKey s ∈ used) →
      (∀ s ∈ (genLoop hooks points ctas maxSP target rand fuel seqs used ctr).1,
          InSeqShape hooks points ctas maxSP s) ∧
        ((genLoop hooks points ctas maxSP target rand fuel seqs used ctr).1.map
          seqKey).Nodup := by
  intro fuel
  induction fuel with
  | zero => intro seqs used ctr h1 h2 _; exact ⟨h1, h2⟩
  | succ fuel ih =>
    intro seqs used ctr h1 h2 h3
    rw [genLoop_succ]
    by_cases hlt : (seqs.length : Int) < target
    · rw [if_pos hlt]
      by_cases hkey : combinationKey
          (pickAttempt hooks points ctas maxSP rand ctr).selectedHook
          (pickAttempt hooks points ctas maxSP rand ctr).selectedSellingPoints
          (pickAttempt hooks points ctas maxSP rand ctr).selectedCTA ∈ used
      · rw [if_pos hkey]
        exact ih seqs used _ h1 h2 h3
      · rw [if_neg hkey]
        obtain ⟨ph, pc, pmem, pnd, plen, pone⟩ :=
          pickAttempt_spec hooks points ctas maxSP rand ctr hhooks hctas hmax hnd
        have hclips : (mkSeq (pickAttempt hooks points ctas maxSP rand ctr)
            seqs.length).clips =
            (pickAttempt hooks points ctas maxSP rand ctr).selectedHook ::
              ((pickAttempt hooks points ctas maxSP rand ctr).selectedSellingPoints ++
                [(pickAttempt hooks points ctas maxSP rand ctr).selectedCTA]) := by
          simp [mkSeq]
        have hshape : InSeqShape hooks points ctas maxSP
            (mkSeq (pickAttempt hooks points ctas maxSP rand ctr) seqs.length) := by
          refine ⟨_, _, _, hclips, ph, pc, pmem, pnd, plen, pone, ?_⟩
          rw [hclips]
          rfl
        have hkeyeq : seqKey (mkSeq (pickAttempt hooks points ctas maxSP rand ctr)
            seqs.length) = combinationKey
              (pickAttempt hooks points ctas maxSP rand ctr).selectedHook
              (pickAttempt hooks points ctas maxSP rand ctr).selectedSellingPoints
              (pickAttempt hooks points ctas maxSP rand ctr).selectedCTA :=
          seqKey_of_clips hclips
        have hnotmem : combinationKey
            (pickAttempt hooks points ctas maxSP rand ctr).selectedHook
            (pickAttempt hooks points ctas maxSP rand ctr).selectedSellingPoints
            (pickAttempt hooks points ctas maxSP rand ctr).selectedCTA ∉
              seqs.map seqKey := by
          intro hmem
          rcases List.mem_map.1 hmem with ⟨s, hs, hsk⟩
          exact hkey (hsk ▸ h3 s hs)
        refine ih _ _ _ ?_ ?_ ?_
        · intro s hs
          rcases List.mem_append.1 hs with hs | hs
          · exact h1 s hs
          · rw [List.mem_singleton.1 hs]
            exact hshape
        · rw [List.map_append]
          rw [List.nodup_append]
          refine ⟨h2, by simp, ?_⟩
          intro x hx
          simp only [List.map_cons, List.map_nil, hkeyeq]
          intro hx2
          rw [List.mem_singleton.1 hx2] at hx
          exact hnotmem hx
        · intro s hs
          rcases List.mem_append.1 hs with hs | hs
          · exact List.mem_cons_of_mem _ (h3 s hs)
          · rw [List.mem_singleton.1 hs, hkeyeq]
            exact List.mem_cons_self _ _
    · rw [if_neg hlt]
      exact ⟨h1, h2⟩

lemma genLoop_target_nonpos (hooks points ctas : List VideoClip) (maxSP : Nat)
    (target : Int) (rand : Nat → Nat) (h : target ≤ 0) :
    ∀ fuel used ctr,
      genLoop hooks points ctas maxSP target rand fuel [] used ctr = ([], fuel) := by
  intro fuel used ctr
  cases fuel with
  | zero => rfl
  | succ fuel =>
    rw [genLoop_succ, if_neg]
    simp only [List.length_nil, Nat.cast_zero]
    omega

/-! ### Lemmas: injectivity of the combination key -/

lemma joinPipe_data : ∀ l : List String, (joinPipe l).data = charJoin (l.map String.data)
  | [] => rfl
  | [_] => rfl
  | a :: b :: rest => by
    show (a ++ "|" ++ joinPipe (b :: rest)).data =
      a.data ++ '|' :: charJoin ((b :: rest).map String.data)
    rw [String.data_append, String.data_append, joinPipe_data (b :: rest)]
    simp

lemma pipe_split : ∀ a1 a2 r1 r2 : List Char,
    (∀ c ∈ a1, c ≠ '|') → (∀ c ∈ a2, c ≠ '|') →
    (r1 = [] ∨ ∃ t, r1 = '|' :: t) → (r2 = [] ∨ ∃ t, r2 = '|' :: t) →
    a1 ++ r1 = a2 ++ r2 → a1 = a2 ∧ r1 = r2 := by
  intro a1
  induction a1 with
  | nil =>
    intro a2 r1 r2 _ h2 hr1 _ heq
    cases a2 with
    | nil => exact ⟨rfl, heq⟩
    | cons y ys =>
      exfalso
      simp only [List.nil_append, List.cons_append] at heq
      rcases hr1 with rfl | ⟨t, rfl⟩
      · exact List.noConfusion heq
      · injection heq with hy _
        exact h2 y (by simp) hy.symm
  | cons x xs ih =>
    intro a2 r1 r2 h1 h2 hr1 hr2 heq
    cases a2 with
    | nil =>
      exfalso
      simp only [List.nil_append, List.cons_append] at heq
      rcases hr2 with rfl | ⟨t, rfl⟩
      · exact List.noConfusion heq
      · injection heq with hx _
        exact h1 x (by simp) hx
    | cons y ys =>
      simp only [List.cons_append, List.cons.injEq] at heq
      obtain ⟨hxy, htail⟩ := heq
      obtain ⟨hys, hr⟩ := ih ys r1 r2 (fun c hc => h1 c (by simp [hc]))
        (fun c hc => h2 c (by simp [hc])) hr1 hr2 htail
      exact ⟨by rw [hxy, hys], hr⟩

lemma charJoin_injective : ∀ l1 l2 : List (List Char),
    l1 ≠ [] → l2 ≠ [] →
    (∀ a ∈ l1, ∀ c ∈ a, c ≠ '|') → (∀ a ∈ l2, ∀ c ∈ a, c ≠ '|') →
    charJoin l1 = charJoin l2 → l1 = l2 := by
  intro l1
  induction l1 with
  | nil => intro l2 hne; exact absurd rfl hne
  | cons a1 t1 ih =>
    intro l2 _ hl2 hp1 hp2 heq
    cases l2 with
    | nil => exact absurd rfl hl2
    | cons a2 t2 =>
      cases t1 with
      | nil =>
        cases t2 with
        | nil =>
          simp only [charJoin] at heq
          rw [heq]
        | cons b2 t2' =>
          exfalso
          simp only [charJoin] at heq
          have hs := pipe_split a1 a2 [] ('|' :: charJoin (b2 :: t2'))
            (hp1 a1 (by simp)) (hp2 a2 (by simp)) (Or.inl rfl) (Or.inr ⟨_, rfl⟩)
            (by rw [List.append_nil]; exact heq)
          exact List.noConfusion hs.2
      | cons b1 t1' =>
        cases t2 with
        | nil =>
          exfalso
          simp only [charJoin] at heq
          have hs := pipe_split a1 a2 ('|' :: charJoin (b1 :: t1')) []
            (hp1 a1 (by simp)) (hp2 a2 (by simp)) (Or.inr ⟨_, rfl⟩) (Or.inl rfl)
            (by rw [List.append_nil]; exact heq)
          exact List.noConfusion hs.2
        | cons b2 t2' =>
          simp only [charJoin] at heq
          have hs := pipe_split a1 a2 ('|' :: charJoin (b1 :: t1'))
            ('|' :: charJoin (b2 :: t2'))
            (hp1 a1 (by simp)) (hp2 a2 (by simp)) (Or.inr ⟨_, rfl⟩) (Or.inr ⟨_, rfl⟩) heq
          have htail : charJoin (b1 :: t1') = charJoin (b2 :: t2') := by
            have h2 := hs.2
            injection h2
          have hrest := ih (b2 :: t2') (by simp) (by simp)
            (fun a ha => hp1 a (List.mem_cons_of_mem _ ha))
            (fun a ha => hp2 a (List.mem_cons_of_mem _ ha)) htail
          rw [hs.1, hrest]

lemma joinPipe_injective {l1 l2 : List String} (h1 : l1 ≠ []) (h2 : l2 ≠ [])
    (hp1 : ∀ s ∈ l1, pipeFree s) (hp2 : ∀ s ∈ l2, pipeFree s)
    (heq : joinPipe l1 = joinPipe l2) : l1 = l2 := by
  have hd := congrArg String.data heq
  rw [joinPipe_data, joinPipe_data] at hd
  have hmap := charJoin_injective (l1.map String.data) (l2.map String.data)
    (by simpa using h1) (by simpa using h2)
    (fun a ha c hc hcp => by
      rcases List.mem_map.1 ha with ⟨s, hs, rfl⟩
      exact hp1 s hs (hcp ▸ hc))
    (fun a ha c hc hcp => by
      rcases List.mem_map.1 ha with ⟨s, hs, rfl⟩
      exact hp2 s hs (hcp ▸ hc)) hd
  exact List.map_injective_iff.2 (fun a b hab => String.ext hab) hmap

lemma sortIds_perm (l : List String) : (sortIds l).Perm l :=
  List.perm_insertionSort _ l

lemma sortIds_eq_of_perm {l1 l2 : List String} (h : l1.Perm l2) :
    sortIds l1 = sortIds l2 := by
  have hs1 : List.Sorted (fun a b : String => a ≤ b) (sortIds l1) :=
    List.sorted_insertionSort _ l1
  have hs2 : List.Sorted (fun a b : String => a ≤ b) (sortIds l2) :=
    List.sorted_insertionSort _ l2
  exact List.eq_of_perm_of_sorted
    ((sortIds_perm l1).trans (h.trans (sortIds_perm l2).symm)) hs1 hs2

/-! ### Lemmas: destructuring a successful generation -/

lemma generateSequences_ok {clips : List VideoClip} {rand : Nat → Nat} {l : List Sequence}
    (h : generateSequences clips rand = Except.ok l) :
    clips.length ≠ 0 ∧
      (clips.filter (fun c => c.type == ClipType.hook)) ≠ [] ∧
      (clips.filter (fun c => c.type == ClipType.cta)) ≠ [] ∧
      l = (genLoop (clips.filter (fun c => c.type == ClipType.hook))
            (clips.filter (fun c => c.type == ClipType.sellingPoint))
            (clips.filter (fun c => c.type == ClipType.cta))
            (min 3 (clips.filter (fun c => c.type == ClipType.sellingPoint)).length)
            (min 10 (maxCombinations
              (clips.filter (fun c => c.type == ClipType.hook)).length
              (clips.filter (fun c => c.type == ClipType.cta)).length
              (clips.filter (fun c => c.type == ClipType.sellingPoint)).length))
            rand 100 [] [] 0).1 := by
  unfold generateSequences at h
  split_ifs at h with h1 h2
  push_neg at h2
  refine ⟨h1, ?_, ?_, ?_⟩
  · intro hnil
    exact h2.1 (by rw [hnil]; rfl)
  · intro hnil
    exact h2.2 (by rw [hnil]; rfl)
  · injection h with h
    exact h.symm

/-! ### Lemmas: the export pipeline -/

lemma fsWrite_same (fs : FS) (nm : String) (d : FileData) :
    fsWrite fs nm d nm = some d := by
  simp [fsWrite]

lemma fsWrite_other {m nm : String} (h : m ≠ nm) (fs : FS) (d : FileData) :
    fsWrite fs nm d m = fs m := by
  simp [fsWrite, h]

lemma stageLoop_spec : ∀ (clips : List VideoClip) (fs : FS) (i : Nat) (acc : List String),
    (∀ c ∈ clips, c.file ≠ none) →
    (stageLoop clips fs i acc).1 =
        Except.ok (acc ++ (List.range clips.length).map (fun k => inputName (i + k))) ∧
      (∀ k, k < clips.length →
        (stageLoop clips fs i acc).2 (inputName (i + k)) = (clips.getD k dummyClip).file) ∧
      (∀ nm : String, (∀ k, k < clips.length → nm ≠ inputName (i + k)) →
        (stageLoop clips fs i acc).2 nm = fs nm) := by
  intro clips
  induction clips with
  | nil =>
    intro fs i acc _
    refine ⟨by simp [stageLoop], ?_, ?_⟩
    · intro k hk
      simp at hk
    · intro nm _
      rfl
  | cons c rest ih =>
    intro fs i acc hpay
    obtain ⟨d, hd⟩ : ∃ d, c.file = some d := by
      cases hcf : c.file with
      | none => exact absurd hcf (hpay c (by simp))
      | some d => exact ⟨d, rfl⟩
    have hstep : stageLoop (c :: rest) fs i acc =
        stageLoop rest (fsWrite fs (inputName i) d) (i + 1) (acc ++ [inputName i]) := by
      simp [stageLoop, hd]
    obtain ⟨ih1, ih2, ih3⟩ := ih (fsWrite fs (inputName i) d) (i + 1)
      (acc ++ [inputName i]) (fun x hx => hpay x (by simp [hx]))
    refine ⟨?_, ?_, ?_⟩
    · have hlist : (acc ++ [inputName i]) ++
          (List.range rest.length).map (fun k => inputName ((i + 1) + k)) =
          acc ++ (List.range (rest.length + 1)).map (fun k => inputName (i + k)) := by
        rw [List.range_succ_eq_map, List.map_cons, List.map_map, List.append_assoc,
          List.singleton_append, Nat.add_zero]
        congr 2
        apply List.map_congr_left
        intro k _
        simp only [Function.comp_apply]
        congr 1
        omega
      rw [hstep, ih1, List.length_cons, hlist]
    · intro k hk
      cases k with
      | zero =>
        have hih := ih3 (inputName (i + 0)) (fun k2 hk2 heq => by
          have := inputName_injective heq
          omega)
        rw [hstep, hih, Nat.add_zero, fsWrite_same]
        exact hd.symm
      | succ k =>
        rw [hstep, show i + (k + 1) = (i + 1) + k by omega]
        exact ih2 k (by simpa using hk)
    · intro nm hnm
      have hih := ih3 nm (fun k hk => by
        rw [show (i + 1) + k = i + (k + 1) by omega]
        exact hnm (k + 1) (by simp only [List.length_cons]; omega))
      rw [hstep, hih]
      exact fsWrite_other (by simpa using hnm 0 (by simp)) fs d

lemma lookupAll_inputName : ∀ (vals : List FileData) (start : Nat) (g : FS),
    (∀ k, k < vals.length → g (inputName (start + k)) = some (vals.getD k [])) →
    lookupAll g ((List.range vals.length).map (fun k => inputName (start + k))) =
      some vals := by
  intro vals
  induction vals with
  | nil => intro start g _; rfl
  | cons v rest ih =>
    intro start g hg
    have h0 : g (inputName start) = some v := by
      have := hg 0 (by simp)
      simpa using this
    have htail : lookupAll g ((List.range rest.length).map
        (fun k => inputName ((start + 1) + k))) = some rest := by
      refine ih (start + 1) g ?_
      intro k hk
      have := hg (k + 1) (by simp only [List.length_cons]; omega)
      rw [show start + (k + 1) = (start + 1) + k by omega] at this
      simpa using this
    have hmapeq : (List.range rest.length).map
        ((fun k => inputName (start + k)) ∘ Nat.succ) =
        (List.range rest.length).map (fun k => inputName ((start + 1) + k)) := by
      apply List.map_congr_left
      intro k _
      simp only [Function.comp_apply]
      congr 1
      omega
    rw [List.length_cons, List.range_succ_eq_map, List.map_cons, List.map_map, hmapeq]
    simp [lookupAll, h0, htail]

lemma exportSequence_success (fs : FS) (s : Sequence) (i : Nat)
    (hpay : ∀ c ∈ s.clips, c.file ≠ none) :
    (exportSequence false fs s (some i)).1 =
      Except.ok (some { name := "restitched " ++ natToString (i + 1) ++ ".mp4"
                        data := (s.clips.map (fun c => c.file.getD [])).flatten }) := by
  obtain ⟨hst1, hst2, hst3⟩ := stageLoop_spec s.clips fs 0 [] hpay
  rw [List.nil_append] at hst1
  set M := (List.range s.clips.length).map (fun k => inputName (0 + k)) with hM
  set fs1 := (stageLoop s.clips fs 0 []).2 with hfs1
  have hSL : stageLoop s.clips fs 0 [] = (Except.ok M, fs1) := by
    rw [hfs1, ← hst1]
  have hvals : lookupAll (fsWrite fs1 "list.txt" M) M =
      some (s.clips.map (fun c => c.file.getD [])) := by
    have hlen : (s.clips.map (fun c => c.file.getD [])).length = s.clips.length := by
      simp
    rw [hM, ← hlen]
    refine lookupAll_inputName _ 0 _ ?_
    intro k hk
    rw [hlen] at hk
    rw [fsWrite_other (inputName_ne_list _) _ _, hst2 k hk]
    rw [List.getD_eq_getElem _ _ hk, List.getD_eq_getElem _ _ (by simpa using hk),
      List.getElem_map]
    cases hcf : s.clips[k].file with
    | none => exact absurd hcf (hpay _ (List.getElem_mem _))
    | some dd => rfl
  have hconcat : ffmpegConcat false (fsWrite fs1 "list.txt" M) =
      (Except.ok (), fsWrite (fsWrite fs1 "list.txt" M) "output.mp4"
        ((s.clips.map (fun c => c.file.getD [])).flatten)) := by
    unfold ffmpegConcat
    rw [if_neg (by simp), fsWrite_same]
    dsimp only
    rw [hvals]
  unfold exportSequence
  rw [hSL]
  dsimp only
  rw [hconcat]
  dsimp only
  rw [fsWrite_same]

lemma exportSequence_no_ok_none (e : Bool) (fs : FS) (s : Sequence) (i : Nat) :
    (exportSequence e fs s (some i)).1 ≠ Except.ok none := by
  unfold exportSequence
  rcases hx : stageLoop s.clips fs 0 [] with ⟨r1, fs1⟩
  cases r1 with
  | error e1 => simp
  | ok m =>
    dsimp only
    rcases hy : ffmpegConcat e (fsWrite fs1 "list.txt" m) with ⟨r2, fs3⟩
    cases r2 with
    | error e2 => simp
    | ok u =>
      dsimp only
      cases fs3 "output.mp4" with
      | none => simp
      | some od => simp

lemma batchLoop_names (oracle : Nat → Bool) : ∀ (seqs : List Sequence) (i : Nat) (fs : FS)
    (entries es : List (String × FileData)),
    (batchLoop oracle seqs i fs entries).1 = Except.ok es →
    es.map Prod.fst = entries.map Prod.fst ++
      (List.range seqs.length).map
        (fun k => "restitched " ++ natToString (i + k + 1) ++ ".mp4") := by
  intro seqs
  induction seqs with
  | nil =>
    intro i fs entries es h
    simp only [batchLoop] at h
    injection h with h
    subst h
    simp
  | cons s rest ih =>
    intro i fs entries es h
    simp only [batchLoop] at h
    rcases hx : exportSequence (oracle i) fs s (some i) with ⟨r1, fs2⟩
    rw [hx] at h
    cases r1 with
    | error e1 =>
      dsimp only at h
      exact absurd h (by simp)
    | ok art =>
      dsimp only at h
      cases art with
      | none =>
        exfalso
        have hno := exportSequence_no_ok_none (oracle i) fs s i
        rw [hx] at hno
        exact hno rfl
      | some a =>
        have hrec := ih (i + 1) fs2
          (entries ++ [("restitched " ++ natToString (i + 1) ++ ".mp4", a.data)]) es h
        rw [hrec]
        simp only [List.map_append, List.map_cons, List.map_nil, List.length_cons,
          List.range_succ_eq_map, List.map_map, List.append_assoc,
          List.singleton_append, Nat.add_zero]
        congr 1
        congr 1
        apply List.map_congr_left
        intro k _
        simp only [Function.comp_apply]
        congr 3
        omega

lemma batchLoop_append (oracle : Nat → Bool) :
    ∀ (l1 l2 : List Sequence) (i : Nat) (fs : FS) (entries : List (String × FileData)),
      batchLoop oracle (l1 ++ l2) i fs entries =
        match batchLoop oracle l1 i fs entries with
        | (Except.ok es, fs2) => batchLoop oracle l2 (i + l1.length) fs2 es
        | (Except.error e, fs2) => (Except.error e, fs2) := by
  intro l1
  induction l1 with
  | nil =>
    intro l2 i fs entries
    simp [batchLoop]
  | cons s rest ih =>
    intro l2 i fs entries
    simp only [List.cons_append, batchLoop]
    rcases hx : exportSequence (oracle i) fs s (some i) with ⟨r1, fs2⟩
    cases r1 with
    | error e1 => dsimp only
    | ok art =>
      dsimp only
      cases art with
      | some a =>
        dsimp only
        simp only [List.append_eq]
        rw [ih]
        simp only [List.length_cons]
        rw [show i + 1 + rest.length = i + (rest.length + 1) by omega]
      | none =>
        dsimp only
        simp only [List.append_eq]
        rw [ih]
        simp only [List.length_cons]
        rw [show i + 1 + rest.length = i + (rest.length + 1) by omega]

/-! ### Claim theorems: the sequence generator -/

/-- C8: `generate` fails with `EmptyInput` on an empty clip set, fails
with `MissingRole` when the set has no hook or no cta, and in both
failure cases produces no sequences. -/
theorem C8_generate_errors (clips : List VideoClip) (rand : Nat → Nat) :
    (clips = [] → generateSequences clips rand = Except.error GenError.emptyInput) ∧
    (clips ≠ [] →
      ((clips.filter (fun c => c.type == ClipType.hook)) = [] ∨
        (clips.filter (fun c => c.type == ClipType.cta)) = []) →
      generateSequences clips rand = Except.error GenError.missingRole) ∧
    (∀ e l, generateSequences clips rand = Except.error e →
      generateSequences clips rand ≠ Except.ok l) := by
  refine ⟨?_, ?_, ?_⟩
  · intro h
    subst h
    rfl
  · intro hne hrole
    unfold generateSequences
    rw [if_neg (by simpa [List.length_eq_zero] using hne), if_pos]
    rcases hrole with h | h
    · exact Or.inl (by rw [h]; rfl)
    · exact Or.inr (by rw [h]; rfl)
  · intro e l he hl
    rw [he] at hl
    exact Except.noConfusion hl

/-- C8 witness: the two failure modes at concrete inputs. -/
theorem C8_generate_errors_witness :
    generateSequences [] (fun _ => 0) = Except.error GenError.emptyInput ∧
    generateSequences [exHook] (fun _ => 0) = Except.error GenError.missingRole := by
  constructor
  · exact (C8_generate_errors [] (fun _ => 0)).1 rfl
  · exact (C8_generate_errors [exHook] (fun _ => 0)).2.1 (by simp) (Or.inr rfl)

/-- C2 counterexample: on the clip set with exactly 1 hook, 0
selling-points, 1 cta, `generate` does *not* return one hook-then-cta
sequence; it succeeds with the empty list, because the code's ceiling
sum over `k = 1..maxPoints` is the empty sum 0 when there are no
selling points, so the target is `min 10 0 = 0`. -/
theorem C2_counterexample :
    generateSequences [exHook, exCta] (fun _ => 0) = Except.ok [] ∧
    ¬∃ s : Sequence, generateSequences [exHook, exCta] (fun _ => 0) = Except.ok [s] := by
  refine ⟨rfl, ?_⟩
  rintro ⟨s, hs⟩
  rw [show generateSequences [exHook, exCta] (fun _ => 0) = Except.ok [] from rfl] at hs
  injection hs with hs
  exact List.noConfusion hs

/-- C2 (amended): `generate` on a clip set with exactly 1 hook, 0
selling-points and 1 cta is not an error — it succeeds — but returns
zero sequences (the empty list), for every outcome of the random
stream, because the theoretical-ceiling sum is empty and the target is
therefore 0. -/
theorem C2_generate_zero_points (clips : List VideoClip) (rand : Nat → Nat)
    (hh : (clips.filter (fun c => c.type == ClipType.hook)).length = 1)
    (hp : (clips.filter (fun c => c.type == ClipType.sellingPoint)).length = 0)
    (hc : (clips.filter (fun c => c.type == ClipType.cta)).length = 1) :
    generateSequences clips rand = Except.ok [] := by
  have hne : ¬clips.length = 0 := by
    intro h0
    rw [List.length_eq_zero] at h0
    subst h0
    simp at hh
  unfold generateSequences
  rw [if_neg hne, if_neg (by rw [hh, hc]; simp)]
  rw [hh, hp, hc]
  rw [genLoop_target_nonpos _ _ _ _ _ _ (by decide) 100 [] 0]

/-- C2 witness: the amended behaviour at a concrete clip set and random
stream. -/
theorem C2_generate_zero_points_witness :
    generateSequences [exHook, exCta] (fun n => n) = Except.ok [] :=
  C2_generate_zero_points [exHook, exCta] (fun n => n) rfl rfl rfl

/-- C4 counterexample: at 1 hook, 0 selling-points, 1 cta the spec's
ceiling (sum defined as 1 when `maxPoints = 0`) is 1, so the claim
demands `min 10 1 = 1` sequence when the budget is not exhausted; the
code's ceiling is 0 and the run returns 0 sequences with its entire
100-attempt budget intact. -/
theorem C4_counterexample :
    specCeiling 1 1 0 = 1 ∧
    maxCombinations 1 1 0 = 0 ∧
    generateSequences [exHook, exCta] (fun _ => 2) = Except.ok [] ∧
    (genLoop [exHook] [] [exCta] (min 3 0) (min 10 (maxCombinations 1 1 0)) (fun _ => 2)
        100 [] [] 0).2 = 100 := by
  refine ⟨by decide, by decide, rfl, rfl⟩

/-- C4 (amended): for every input on which `generate` succeeds, the
code's ceiling equals `|hooks| × |ctas| × Σ_{k=1}^{min 3 |points|}
C(|points|, k)` — an *empty* sum (0, not 1) when there are no selling
points — and the run returns at most `min 10 C` sequences, returning
exactly that many unless the 100-attempt budget was exhausted by
collisions (remaining budget 0). -/
theorem C4_target_and_cap (clips : List VideoClip) (rand : Nat → Nat)
    (l : List Sequence) (h : generateSequences clips rand = Except.ok l) :
    maxCombinations
        (clips.filter (fun c => c.type == ClipType.hook)).length
        (clips.filter (fun c => c.type == ClipType.cta)).length
        (clips.filter (fun c => c.type == ClipType.sellingPoint)).length =
      ((clips.filter (fun c => c.type == ClipType.hook)).length : Int) *
        ((clips.filter (fun c => c.type == ClipType.cta)).length : Int) *
        ∑ k ∈ Finset.Icc 1
            (min 3 (clips.filter (fun c => c.type == ClipType.sellingPoint)).length),
          ((clips.filter (fun c => c.type == ClipType.sellingPoint)).length.choose k :
            Int) ∧
    (l.length : Int) ≤ min 10 (maxCombinations
        (clips.filter (fun c => c.type == ClipType.hook)).length
        (clips.filter (fun c => c.type == ClipType.cta)).length
        (clips.filter (fun c => c.type == ClipType.sellingPoint)).length) ∧
    ((l.length : Int) < min 10 (maxCombinations
        (clips.filter (fun c => c.type == ClipType.hook)).length
        (clips.filter (fun c => c.type == ClipType.cta)).length
        (clips.filter (fun c => c.type == ClipType.sellingPoint)).length) →
      (genLoop (clips.filter (fun c => c.type == ClipType.hook))
          (clips.filter (fun c => c.type == ClipType.sellingPoint))
          (clips.filter (fun c => c.type == ClipType.cta))
          (min 3 (clips.filter (fun c => c.type == ClipType.sellingPoint)).length)
          (min 10 (maxCombinations
            (clips.filter (fun c => c.type == ClipType.hook)).length
            (clips.filter (fun c => c.type == ClipType.cta)).length
            (clips.filter (fun c => c.type == ClipType.sellingPoint)).length))
          rand 100 [] [] 0).2 = 0) := by
  obtain ⟨h0, h1, h2, rfl⟩ := generateSequences_ok h
  have hinit : ((([] : List Sequence).length : Int) ≤ min 10 (maxCombinations
      (clips.filter (fun c => c.type == ClipType.hook)).length
      (clips.filter (fun c => c.type == ClipType.cta)).length
      (clips.filter (fun c => c.type == ClipType.sellingPoint)).length)) := by
    simp only [List.length_nil, Nat.cast_zero]
    exact le_min (by norm_num) (maxCombinations_nonneg _ _ _)
  obtain ⟨hle, hfuel⟩ := genLoop_length _ _ _ _ _ rand 100 [] [] 0 hinit
  exact ⟨maxCombinations_eq _ _ _, hle, hfuel⟩

/-- C4 witness: the amended behaviour at a concrete valid input. -/
theorem C4_target_and_cap_witness :
    maxCombinations 1 1 0 =
      (1 : Int) * (1 : Int) * ∑ k ∈ Finset.Icc 1 (min 3 0), ((0).choose k : Int) ∧
    ((0 : Nat) : Int) ≤ min 10 (maxCombinations 1 1 0) ∧
    (((0 : Nat) : Int) < min 10 (maxCombinations 1 1 0) →
      (genLoop [exHook] [] [exCta] (min 3 0) (min 10 (maxCombinations 1 1 0))
        (fun _ => 1) 100 [] [] 0).2 = 0) :=
  C4_target_and_cap [exHook, exCta] (fun _ => 1) [] rfl

/-- C3: on any clip set with pairwise-distinct clip ids, and for every
outcome of the random choices, no two sequences returned by one call of
`generate` share the order-normalised combination signature (hook id,
set of selling-point ids, cta id); selling-point order does not
distinguish signatures. -/
theorem C3_distinct_signatures (clips : List VideoClip) (rand : Nat → Nat)
    (hnd : (clips.map (fun c => c.id)).Nodup)
    (l : List Sequence) (h : generateSequences clips rand = Except.ok l) :
    l.Pairwise (fun s1 s2 =>
      ¬(hookIdOf s1 = hookIdOf s2 ∧ (spIdsOf s1).toFinset = (spIdsOf s2).toFinset ∧
        ctaIdOf s1 = ctaIdOf s2)) := by
  obtain ⟨h0, h1, h2, rfl⟩ := generateSequences_ok h
  have hndp : ((clips.filter (fun c => c.type == ClipType.sellingPoint)).map
      (fun p => p.id)).Nodup :=
    List.Nodup.sublist (List.Sublist.map _ (List.filter_sublist _)) hnd
  obtain ⟨hshapes, hkeys⟩ :=
    genLoop_shape (clips.filter (fun c => c.type == ClipType.hook))
      (clips.filter (fun c => c.type == ClipType.sellingPoint))
      (clips.filter (fun c => c.type == ClipType.cta))
      (min 3 (clips.filter (fun c => c.type == ClipType.sellingPoint)).length)
      (min 10 (maxCombinations
        (clips.filter (fun c => c.type == ClipType.hook)).length
        (clips.filter (fun c => c.type == ClipType.cta)).length
        (clips.filter (fun c => c.type == ClipType.sellingPoint)).length))
      rand h1 h2 rfl hndp 100 [] [] 0 (by simp) (by simp) (by simp)
  have hpw := List.pairwise_map.1 hkeys
  refine List.Pairwise.imp_of_mem ?_ hpw
  intro a b ha hb hne hsig
  obtain ⟨hhk, hsp, hct⟩ := hsig
  apply hne
  obtain ⟨hk1, sps1, ct1, hc1, _, _, _, hnd1, _, _, _⟩ := hshapes a ha
  obtain ⟨hk2, sps2, ct2, hc2, _, _, _, hnd2, _, _, _⟩ := hshapes b hb
  obtain ⟨_, _, ha3⟩ := observers_of_clips hc1
  obtain ⟨_, _, hb3⟩ := observers_of_clips hc2
  have hperm : (spIdsOf a).Perm (spIdsOf b) := by
    refine List.perm_of_nodup_nodup_toFinset_eq ?_ ?_ hsp
    · rw [ha3]; exact hnd1
    · rw [hb3]; exact hnd2
  rw [seqKey, seqKey, hhk, hct, sortIds_eq_of_perm hperm]

/-- C3 witness: the pairwise-distinct-signature conclusion at a
concrete input. -/
theorem C3_distinct_signatures_witness :
    ([exSeq1] : List Sequence).Pairwise (fun s1 s2 =>
      ¬(hookIdOf s1 = hookIdOf s2 ∧ (spIdsOf s1).toFinset = (spIdsOf s2).toFinset ∧
        ctaIdOf s1 = ctaIdOf s2)) :=
  C3_distinct_signatures [exHook, exPoint, exCta] (fun _ => 0) (by decide) [exSeq1] rfl

/-- C7: every sequence `generate` returns (given distinct clip ids and
a non-empty selling-point pool) is exactly one hook clip, then between
1 and `min 3 |points|` pairwise-distinct selling-point clips, then
exactly one cta clip, and its stored duration is the sum of its stored
clips' durations. -/
theorem C7_sequence_shape (clips : List VideoClip) (rand : Nat → Nat)
    (hnd : (clips.map (fun c => c.id)).Nodup)
    (hpool : clips.filter (fun c => c.type == ClipType.sellingPoint) ≠ [])
    (l : List Sequence) (h : generateSequences clips rand = Except.ok l) :
    ∀ s ∈ l, ∃ hk sps ct,
      s.clips = hk :: (sps ++ [ct]) ∧
      hk.type = ClipType.hook ∧
      (∀ p ∈ sps, p.type = ClipType.sellingPoint) ∧
      ct.type = ClipType.cta ∧
      sps.Nodup ∧
      1 ≤ sps.length ∧
      sps.length ≤ min 3 (clips.filter (fun c => c.type == ClipType.sellingPoint)).length ∧
      s.duration = sumDuration s.clips := by
  obtain ⟨h0, h1, h2, rfl⟩ := generateSequences_ok h
  have hndp : ((clips.filter (fun c => c.type == ClipType.sellingPoint)).map
      (fun p => p.id)).Nodup :=
    List.Nodup.sublist (List.Sublist.map _ (List.filter_sublist _)) hnd
  obtain ⟨hshapes, _⟩ :=
    genLoop_shape (clips.filter (fun c => c.type == ClipType.hook))
      (clips.filter (fun c => c.type == ClipType.sellingPoint))
      (clips.filter (fun c => c.type == ClipType.cta))
      (min 3 (clips.filter (fun c => c.type == ClipType.sellingPoint)).length)
      (min 10 (maxCombinations
        (clips.filter (fun c => c.type == ClipType.hook)).length
        (clips.filter (fun c => c.type == ClipType.cta)).length
        (clips.filter (fun c => c.type == ClipType.sellingPoint)).length))
      rand h1 h2 rfl hndp 100 [] [] 0 (by simp) (by simp) (by simp)
  intro s hs
  obtain ⟨hk, sps, ct, hc, hmh, hmc, hmp, hids, hlen, hone, hdur⟩ := hshapes s hs
  refine ⟨hk, sps, ct, hc, ?_, ?_, ?_, List.Nodup.of_map _ hids, ?_, hlen, hdur⟩
  · simpa using (List.mem_filter.1 hmh).2
  · intro p hp
    simpa using (List.mem_filter.1 (hmp p hp)).2
  · simpa using (List.mem_filter.1 hmc).2
  · rcases hone with hemp | hge
    · exact absurd hemp hpool
    · exact hge

/-- C7 witness: the shape conclusion at a concrete input, for the one
sequence that run returns. -/
theorem C7_sequence_shape_witness :
    ∃ hk sps ct,
      exSeq1.clips = hk :: (sps ++ [ct]) ∧
      hk.type = ClipType.hook ∧
      (∀ p ∈ sps, p.type = ClipType.sellingPoint) ∧
      ct.type = ClipType.cta ∧
      sps.Nodup ∧
      1 ≤ sps.length ∧
      sps.length ≤ min 3
        ([exHook, exPoint, exCta].filter (fun c => c.type == ClipType.sellingPoint)).length ∧
      exSeq1.duration = sumDuration exSeq1.clips :=
  C7_sequence_shape [exHook, exPoint, exCta] (fun _ => 0) (by decide) (by decide)
    [exSeq1] rfl exSeq1 (by simp)

/-! ### Claim theorems: the export pipeline and the registry -/

/-- C1: the code violates the scoped-cleanup guarantee.  On a
`MissingPayload` failure the already-staged input survives in the
transient workspace (the run below returns with `input0.mp4` still
present), and on the successful batch path (`index` present) the
artifact is returned before the cleanup block ever runs, leaving the
staged input, the manifest and the output in the workspace for the next
export. -/
theorem C1_cleanup_skipped :
    ((exportSequence false fsEmpty seqMissing none).1 =
        Except.error (ExportError.missingPayload "B") ∧
      (exportSequence false fsEmpty seqMissing none).2 (inputName 0) =
        some ["HOOK-BYTES"]) ∧
    ((exportSequence false fsEmpty seqOk (some 0)).1 =
        Except.ok (some { name := "restitched 1.mp4", data := ["HOOK-BYTES"] }) ∧
      (exportSequence false fsEmpty seqOk (some 0)).2 (inputName 0) =
        some ["HOOK-BYTES"] ∧
      (exportSequence false fsEmpty seqOk (some 0)).2 "list.txt" = some [inputName 0] ∧
      (exportSequence false fsEmpty seqOk (some 0)).2 "output.mp4" =
        some ["HOOK-BYTES"]) := by
  exact ⟨⟨by decide, by decide⟩, by decide, by decide, by decide, by decide⟩

/-- C5 (amended): if the exports of the sequences before position
`|pre|` succeed and the export at that position fails with underlying
error `e`, then `exportAll` fails with exactly `e`, produces no archive,
and never attempts the remaining queue (the outcome is independent of
`post`); the outcome carries only the underlying error, not the failing
index. -/
theorem C5_batch_fail_fast (oracle : Nat → Bool) (fsInit : FS) (pre : List Sequence)
    (s : Sequence) (post : List Sequence) (e : ExportError)
    (entries1 : List (String × FileData))
    (h1 : (batchLoop oracle pre 0 fsInit []).1 = Except.ok entries1)
    (h2 : (exportSequence (oracle pre.length) (batchLoop oracle pre 0 fsInit []).2 s
        (some pre.length)).1 = Except.error e) :
    downloadAllSequences oracle fsInit (pre ++ s :: post) =
      (Except.error e,
        (exportSequence (oracle pre.length) (batchLoop oracle pre 0 fsInit []).2 s
          (some pre.length)).2) := by
  unfold downloadAllSequences
  rw [if_neg (by simp), batchLoop_append]
  have hpair1 : batchLoop oracle pre 0 fsInit [] =
      (Except.ok entries1, (batchLoop oracle pre 0 fsInit []).2) := by
    rw [← h1]
  rw [hpair1]
  dsimp only
  rw [show (0 : Nat) + pre.length = pre.length by omega]
  simp only [batchLoop]
  have hpair2 : exportSequence (oracle pre.length) (batchLoop oracle pre 0 fsInit []).2 s
      (some pre.length) =
      (Except.error e, (exportSequence (oracle pre.length)
        (batchLoop oracle pre 0 fsInit []).2 s (some pre.length)).2) := by
    rw [← h2]
  rw [hpair2]

/-- C5 counterexample: two batches that fail at different sequence
indices (0 in the first, 1 in the second) produce identical failure
outcomes, so the failure does not identify which sequence index
failed. -/
theorem C5_counterexample :
    (downloadAllSequences (fun _ => false) fsEmpty [seqMissing]).1 =
      Except.error (ExportError.missingPayload "B") ∧
    (downloadAllSequences (fun _ => false) fsEmpty [seqOk, seqMissing]).1 =
      Except.error (ExportError.missingPayload "B") := by
  exact ⟨by decide, by decide⟩

/-- C5 witness: the amended fail-fast behaviour at a concrete batch
whose second export fails. -/
theorem C5_batch_fail_fast_witness :
    downloadAllSequences (fun _ => false) fsEmpty ([seqOk] ++ seqMissing :: [seqOk2]) =
      (Except.error (ExportError.missingPayload "B"),
        (exportSequence false (batchLoop (fun _ => false) [seqOk] 0 fsEmpty []).2
          seqMissing (some 1)).2) :=
  C5_batch_fail_fast (fun _ => false) fsEmpty [seqOk] seqMissing [seqOk2]
    (ExportError.missingPayload "B") [("restitched 1.mp4", ["HOOK-BYTES"])]
    (by decide) (by decide)

/-- C6: within one export the manifest lists one staged entry per clip,
named by its position, in exactly clip order (and the staged entry at
position `k` holds clip `k`'s payload); a successful export's artifact
is the stream concatenation of its clips' payloads in clip order, named
by its 1-based export index; and a successful `exportAll` archive has
its entries in sequence order, each named by its 1-based export
index. -/
theorem C6_ordering :
    (∀ (s : Sequence) (fs : FS), (∀ c ∈ s.clips, c.file ≠ none) →
      (stageLoop s.clips fs 0 []).1 =
        Except.ok ((List.range s.clips.length).map (fun k => inputName (0 + k))) ∧
      ∀ k, k < s.clips.length →
        (stageLoop s.clips fs 0 []).2 (inputName (0 + k)) =
          (s.clips.getD k dummyClip).file) ∧
    (∀ (s : Sequence) (fs : FS) (i : Nat), (∀ c ∈ s.clips, c.file ≠ none) →
      (exportSequence false fs s (some i)).1 =
        Except.ok (some { name := "restitched " ++ natToString (i + 1) ++ ".mp4"
                          data := (s.clips.map (fun c => c.file.getD [])).flatten })) ∧
    (∀ (oracle : Nat → Bool) (fs : FS) (seqs : List Sequence)
        (es : List (String × FileData)),
      (downloadAllSequences oracle fs seqs).1 = Except.ok es →
      es.map Prod.fst = (List.range seqs.length).map
        (fun k => "restitched " ++ natToString (k + 1) ++ ".mp4")) := by
  refine ⟨?_, ?_, ?_⟩
  · intro s fs hpay
    obtain ⟨h1, h2, _⟩ := stageLoop_spec s.clips fs 0 [] hpay
    rw [List.nil_append] at h1
    exact ⟨h1, h2⟩
  · intro s fs i hpay
    exact exportSequence_success fs s i hpay
  · intro oracle fs seqs es h
    unfold downloadAllSequences at h
    by_cases h0 : seqs.length = 0
    · rw [if_pos h0] at h
      exact absurd h (by simp)
    · rw [if_neg h0] at h
      have hnames := batchLoop_names oracle seqs 0 fs [] es h
      rw [hnames]
      simp only [List.map_nil, List.nil_append, Nat.zero_add]

/-- C6 witness: the three ordering conclusions at concrete inputs. -/
theorem C6_ordering_witness :
    ((stageLoop seqOk2.clips fsEmpty 0 []).1 =
        Except.ok ((List.range seqOk2.clips.length).map (fun k => inputName (0 + k))) ∧
      ∀ k, k < seqOk2.clips.length →
        (stageLoop seqOk2.clips fsEmpty 0 []).2 (inputName (0 + k)) =
          (seqOk2.clips.getD k dummyClip).file) ∧
    (exportSequence false fsEmpty seqOk2 (some 0)).1 =
      Except.ok (some { name := "restitched " ++ natToString 1 ++ ".mp4"
                        data := (seqOk2.clips.map (fun c => c.file.getD [])).flatten }) ∧
    ([("restitched 1.mp4", ["HOOK-BYTES"])] : List (String × FileData)).map Prod.fst =
      (List.range ([seqOk] : List Sequence).length).map
        (fun k => "restitched " ++ natToString (k + 1) ++ ".mp4") :=
  ⟨C6_ordering.1 seqOk2 fsEmpty (by decide),
    C6_ordering.2.1 seqOk2 fsEmpty 0 (by decide),
    C6_ordering.2.2 (fun _ => false) fsEmpty [seqOk] _ (by decide)⟩

/-- C9: changing a clip's role and removing clips (individually or in
bulk) leave the already-generated sequences untouched: every captured
clip record, with its role and duration as of generation time, is
retained verbatim. -/
theorem C9_registry_frame (s : AppState) (clipId : String) (newType : ClipType) :
    (updateClipType clipId newType s).sequences = s.sequences ∧
    (removeClip clipId s).sequences = s.sequences ∧
    (removeAllClips s).sequences = s.sequences :=
  ⟨rfl, rfl, rfl⟩

/-- C10: the combination key is injective on combinations whose clip
ids contain no `|`: ids the program itself creates
(`clip-<timestamp>-<random>`) never contain `|`, and two combinations
with pipe-free ids producing the same key agree on the hook id, on the
selling-point id multiset (their id lists are permutations — the set,
as the ids are distinct in practice), and on the cta id. -/
theorem C10_key_injective :
    (∀ ts rnd, pipeFree (mkClipId ts rnd)) ∧
    (∀ (hk1 ct1 hk2 ct2 : VideoClip) (sps1 sps2 : List VideoClip),
      pipeFree hk1.id → pipeFree ct1.id → (∀ p ∈ sps1, pipeFree p.id) →
      pipeFree hk2.id → pipeFree ct2.id → (∀ p ∈ sps2, pipeFree p.id) →
      combinationKey hk1 sps1 ct1 = combinationKey hk2 sps2 ct2 →
      hk1.id = hk2.id ∧
        (sps1.map (fun p => p.id)).Perm (sps2.map (fun p => p.id)) ∧
        ct1.id = ct2.id) := by
  constructor
  · intro ts rnd hmem
    simp only [mkClipId, String.data_append, List.mem_append] at hmem
    rcases hmem with ((h | h) | h) | h
    · exact absurd h (by decide)
    · exact natToString_pipeFree ts h
    · exact absurd h (by decide)
    · exact natToString_pipeFree rnd h
  · intro hk1 ct1 hk2 ct2 sps1 sps2 ph1 pc1 pp1 ph2 pc2 pp2 heq
    have hside : ∀ (hk ct : VideoClip) (sps : List VideoClip),
        pipeFree hk.id → pipeFree ct.id → (∀ p ∈ sps, pipeFree p.id) →
        ∀ x ∈ [hk.id] ++ sortIds (sps.map (fun p => p.id)) ++ [ct.id], pipeFree x := by
      intro hk ct sps ph pc pp x hx
      rcases List.mem_append.1 hx with hx | hx
      · rcases List.mem_append.1 hx with hx | hx
        · rw [List.mem_singleton.1 hx]
          exact ph
        · have hx2 := (sortIds_perm _).mem_iff.1 hx
          rcases List.mem_map.1 hx2 with ⟨p, hp, rfl⟩
          exact pp p hp
      · rw [List.mem_singleton.1 hx]
        exact pc
    have hl := joinPipe_injective (by simp) (by simp)
      (hside hk1 ct1 sps1 ph1 pc1 pp1) (hside hk2 ct2 sps2 ph2 pc2 pp2) heq
    simp only [List.singleton_append, List.cons_append] at hl
    injection hl with hh htail
    have hmid : sortIds (sps1.map (fun p => p.id)) =
        sortIds (sps2.map (fun p => p.id)) := by
      have hdl := congrArg List.dropLast htail
      rwa [List.dropLast_concat, List.dropLast_concat] at hdl
    have hlast : ct1.id = ct2.id := by
      have hgl := congrArg List.getLast? htail
      rw [List.getLast?_concat, List.getLast?_concat] at hgl
      injection hgl
    refine ⟨hh, ?_, hlast⟩
    have hps : (sps1.map (fun p => p.id)).Perm
        (sortIds (sps1.map (fun p => p.id))) := (sortIds_perm _).symm
    rw [hmid] at hps
    exact hps.trans (sortIds_perm _)

/-- C10 witness: pipe-freeness of a generated id and key injectivity at
a concrete combination. -/
theorem C10_key_injective_witness :
    pipeFree (mkClipId 3 7) ∧
    (exHook.id = exHook.id ∧
      ([exPoint].map (fun (p : VideoClip) => p.id)).Perm
        ([exPoint].map (fun (p : VideoClip) => p.id)) ∧
      exCta.id = exCta.id) :=
  ⟨C10_key_injective.1 3 7,
    C10_key_injective.2 exHook exCta exHook exCta [exPoint] [exPoint]
      (by decide) (by decide) (by decide) (by decide) (by decide) (by decide) rfl⟩

end StitchMagic
